import Mathlib

/-!
Shallow embedding of the active-object execution unit implemented in
src/include/Threads/Thread.hpp (class gusc::Threads::Thread).

Modelling choices:
- std::thread::id values are modelled as Nat; the id of a spawned worker thread
  is a parameter of the start operation.
- The monotonic clock (std::chrono::steady_clock) is modelled as Nat instants;
  each operation that reads the clock takes the reading as an explicit argument.
- A callable object is identified by a Nat tag (its field mid) and, for
  result-bearing callables, the Nat value it returns when invoked.
- Executing a message appends its tag to execLog; fulfilling a
  std::promise appends the pair (tag, value) to promises, and the matching
  std::future reads it back via lookup (futureGet).
- messageQueue models the std::queue of the source (front at the list head);
  delayedQueue models the std::map keyed by absolute deadline: a list of
  key-value pairs kept sorted with strictly increasing keys, where mapEmplace
  reproduces std::map::emplace, which inserts nothing when the key is present.
- The C++ member functions throw std::runtime_error; the three distinct error
  messages of the source are modelled by the three constructors of ThreadError.
- Waiting on the condition variable does not mutate the state, so the wait and
  wait_until calls of the run loop are modelled as no-ops; one iteration of the
  run loop body, entered at a clock reading timeNow, is the function loopIter.
- Concurrency is modelled by interleaving: an event trace (Ev, runTrace) mixes
  producer calls and worker loop iterations in an arbitrary order.
-/

namespace Threads

/-- The three runtime errors thrown by the source: Thread already started,
Thread has not been started, and Thread is not accepting messages. -/
inductive ThreadError where
  | alreadyStarted
  | notStarted
  | notAccepting
deriving DecidableEq, Repr

/-- Which concrete Message subclass wraps the callable: CallableMessage or
CallableMessageWithPromise. -/
inductive MsgKind where
  | plain
  | withPromise
deriving DecidableEq, Repr

/-- One queued message: the tag of the wrapped callable, the value the callable
returns when invoked, and the wrapping subclass. -/
structure Msg where
  mid : Nat
  value : Nat
  kind : MsgKind
deriving DecidableEq, Repr

/-- The mutable state of one gusc::Threads::Thread object, extended with the
observation fields execLog (tags of executed callables in execution order) and
promises (fulfilled promise values, in fulfillment order). -/
structure ThreadState where
  isRunning : Bool
  isAcceptingMessages : Bool
  messageQueue : List Msg
  delayedQueue : List (Nat × Msg)
  thread : Option Nat
  missCounter : Nat
  execLog : List Nat
  promises : List (Nat × Nat)
deriving DecidableEq, Repr

/-- State of a freshly constructed Thread: not running, accepting messages,
both queues empty, no spawned std::thread. -/
def initialState : ThreadState :=
  { isRunning := false
    isAcceptingMessages := true
    messageQueue := []
    delayedQueue := []
    thread := none
    missCounter := 0
    execLog := []
    promises := [] }

/-- Message::call(): a CallableMessage just invokes the callable; a
CallableMessageWithPromise invokes it and fulfills its promise with the
returned value (waitablePromise.set_value(callableObject())). -/
def callMsg (s : ThreadState) (m : Msg) : ThreadState :=
  match m.kind with
  | .plain => { s with execLog := s.execLog ++ [m.mid] }
  | .withPromise =>
      { s with execLog := s.execLog ++ [m.mid]
               promises := s.promises ++ [(m.mid, m.value)] }

/-- The promise fulfillments produced by calling one message. -/
def promisesOfMsg (m : Msg) : List (Nat × Nat) :=
  match m.kind with
  | .plain => []
  | .withPromise => [(m.mid, m.value)]

/-- The promise fulfillments produced by calling a list of messages in order. -/
def promisesOf : List Msg → List (Nat × Nat)
  | [] => []
  | m :: rest => promisesOfMsg m ++ promisesOf rest

/-- std::map::emplace on the deadline-keyed delayedQueue: the list is kept
sorted by strictly increasing key; when the key is already present the map is
left unchanged and the new element is not inserted. -/
def mapEmplace (k : Nat) (v : Msg) : List (Nat × Msg) → List (Nat × Msg)
  | [] => [(k, v)]
  | e :: rest =>
    if k < e.1 then (k, v) :: e :: rest
    else if k = e.1 then e :: rest
    else e :: mapEmplace k v rest

/-- Thread::start(): if not running, set running and spawn the worker thread
(here: record its id); otherwise throw Thread already started. -/
def Thread.start (workerId : Nat) (s : ThreadState) :
    Except ThreadError ThreadState :=
  if !s.isRunning then
    .ok { s with isRunning := true, thread := some workerId }
  else
    .error .alreadyStarted

/-- Thread::stop(): if a thread object exists, close admission and clear the
running flag (and notify the loop, a no-op here); otherwise throw Thread has
not been started. -/
def Thread.stop (s : ThreadState) : Except ThreadError ThreadState :=
  if s.thread.isSome then
    .ok { s with isAcceptingMessages := false, isRunning := false }
  else
    .error .notStarted

/-- Thread::send(newMessage): if accepting, push a CallableMessage at the back
of the message queue; otherwise throw the not-accepting error. -/
def Thread.send (mid value : Nat) (s : ThreadState) :
    Except ThreadError ThreadState :=
  if s.isAcceptingMessages then
    .ok { s with messageQueue := s.messageQueue ++ [⟨mid, value, .plain⟩] }
  else
    .error .notAccepting

/-- Thread::sendDelayed(newMessage, timeout): if accepting, emplace a
CallableMessage into the delayed map keyed by now + timeout (now read from the
monotonic clock at admission); otherwise throw the not-accepting error. -/
def Thread.sendDelayed (mid value timeout now : Nat) (s : ThreadState) :
    Except ThreadError ThreadState :=
  if s.isAcceptingMessages then
    .ok { s with delayedQueue := mapEmplace (now + timeout) ⟨mid, value, .plain⟩ s.delayedQueue }
  else
    .error .notAccepting

/-- Thread::getId(): the spawned thread's id if one exists, otherwise
std::this_thread::get_id(), that is, the id of whichever thread is calling. -/
def Thread.getId (callerId : Nat) (s : ThreadState) : Nat :=
  match s.thread with
  | some t => t
  | none => callerId

/-- Thread::getIsSameThread(): does getId() equal the calling thread's id. -/
def Thread.getIsSameThread (callerId : Nat) (s : ThreadState) : Bool :=
  Thread.getId callerId s == callerId

/-- Thread::sendAsync(newMessage): if accepting, either invoke the
CallableMessageWithPromise in place (same thread) or push it at the back of the
message queue (foreign thread); otherwise throw the not-accepting error. The
returned future is read back through futureGet. -/
def Thread.sendAsync (mid value callerId : Nat) (s : ThreadState) :
    Except ThreadError ThreadState :=
  if s.isAcceptingMessages then
    if Thread.getIsSameThread callerId s then
      .ok (callMsg s ⟨mid, value, .withPromise⟩)
    else
      .ok { s with messageQueue := s.messageQueue ++ [⟨mid, value, .withPromise⟩] }
  else
    .error .notAccepting

/-- The admission step of Thread::sendSync(newMessage): throw the not-started
error when the run loop is not running, otherwise delegate to sendAsync. The
subsequent future.get() blocks until the promise is fulfilled and is modelled
by futureGet on a later state. -/
def Thread.sendSyncAdmit (mid value callerId : Nat) (s : ThreadState) :
    Except ThreadError ThreadState :=
  if !s.isRunning then
    .error .notStarted
  else
    Thread.sendAsync mid value callerId s

/-- std::future::get() once the promise has been fulfilled: the value recorded
for the message tag, if any. -/
def futureGet (mid : Nat) (s : ThreadState) : Option Nat :=
  s.promises.lookup mid

/-- The promotion step of Thread::runLoop(): move every delayed entry whose
deadline is strictly before timeNow to the back of the message queue, in map
(deadline) order, stopping at the first entry not yet due. -/
def promoteDelayed (timeNow : Nat) (s : ThreadState) : ThreadState :=
  { s with
      messageQueue :=
        s.messageQueue ++ (s.delayedQueue.takeWhile (fun e => e.1 < timeNow)).map (fun e => e.2)
      delayedQueue := s.delayedQueue.dropWhile (fun e => e.1 < timeNow) }

/-- One iteration of the Thread::runLoop() body entered at clock reading
timeNow: promote due delayed messages, then pop the front of the message queue
(if any) and call it outside the lock, resetting missCounter. The condition
variable waits mutate nothing and are omitted. -/
def loopIter (timeNow : Nat) (s : ThreadState) : ThreadState :=
  match (promoteDelayed timeNow s).messageQueue with
  | [] => promoteDelayed timeNow s
  | m :: rest =>
      callMsg { promoteDelayed timeNow s with messageQueue := rest, missCounter := 0 } m

/-- The while part of Thread::runLoop() under a schedule of clock readings:
while isRunning, perform one iteration per scheduled reading. -/
def runLoopSteps : List Nat → ThreadState → ThreadState
  | [], s => s
  | t :: ts, s => if s.isRunning then runLoopSteps ts (loopIter t s) else s

/-- Thread::runLeftovers(): call every message still in the message queue, in
queue order, and pop them all; the delayed queue is not consulted. -/
def runLeftovers (s : ThreadState) : ThreadState :=
  { s.messageQueue.foldl callMsg s with messageQueue := [] }

/-- The operations whose interleavings we consider: producer calls (with the
caller-side data each one reads) and single worker loop iterations. -/
inductive Ev where
  | start (workerId : Nat)
  | stop
  | send (mid value : Nat)
  | sendDelayed (mid value timeout now : Nat)
  | sendAsync (mid value callerId : Nat)
  | sendSyncAdmit (mid value callerId : Nat)
  | loopIter (timeNow : Nat)
deriving DecidableEq, Repr

/-- Execute one event: a throwing producer call leaves the state unchanged and
reports its error; a loop iteration runs only while the running flag is set
(the while condition of runLoop). -/
def stepEv (s : ThreadState) (e : Ev) : ThreadState × Option ThreadError :=
  match e with
  | .start w =>
    match Thread.start w s with
    | .ok s' => (s', none)
    | .error err => (s, some err)
  | .stop =>
    match Thread.stop s with
    | .ok s' => (s', none)
    | .error err => (s, some err)
  | .send mid v =>
    match Thread.send mid v s with
    | .ok s' => (s', none)
    | .error err => (s, some err)
  | .sendDelayed mid v tmo now =>
    match Thread.sendDelayed mid v tmo now s with
    | .ok s' => (s', none)
    | .error err => (s, some err)
  | .sendAsync mid v cid =>
    match Thread.sendAsync mid v cid s with
    | .ok s' => (s', none)
    | .error err => (s, some err)
  | .sendSyncAdmit mid v cid =>
    match Thread.sendSyncAdmit mid v cid s with
    | .ok s' => (s', none)
    | .error err => (s, some err)
  | .loopIter t => (if s.isRunning then loopIter t s else s, none)

/-- Execute a trace of events, returning the final state and the list of
per-event outcomes (none for success, some err for a thrown error). -/
def runTrace : ThreadState → List Ev → ThreadState × List (Option ThreadError)
  | s, [] => (s, [])
  | s, e :: es =>
    let r := stepEv s e
    let rest := runTrace r.1 es
    (rest.1, r.2 :: rest.2)

/-- The send events corresponding to a list of (tag, value) fire-and-forget
submissions. -/
def sendEvsOf (ms : List (Nat × Nat)) : List Ev :=
  ms.map (fun p => Ev.send p.1 p.2)

/-- A Thread that has been started with worker thread id 5 and is idle. -/
def runningState : ThreadState :=
  { initialState with isRunning := true, thread := some 5 }

/-- A Thread that was started with worker id 7 and then stopped. -/
def stoppedState : ThreadState :=
  { initialState with isRunning := false, isAcceptingMessages := false, thread := some 7 }

/-! Projection lemmas for the elementary operations. -/

theorem callMsg_execLog (s : ThreadState) (m : Msg) :
    (callMsg s m).execLog = s.execLog ++ [m.mid] := by
  cases h : m.kind <;> simp [callMsg, h]

theorem callMsg_promises (s : ThreadState) (m : Msg) :
    (callMsg s m).promises = s.promises ++ promisesOfMsg m := by
  cases h : m.kind <;> simp [callMsg, promisesOfMsg, h]

theorem callMsg_messageQueue (s : ThreadState) (m : Msg) :
    (callMsg s m).messageQueue = s.messageQueue := by
  cases h : m.kind <;> simp [callMsg, h]

theorem callMsg_delayedQueue (s : ThreadState) (m : Msg) :
    (callMsg s m).delayedQueue = s.delayedQueue := by
  cases h : m.kind <;> simp [callMsg, h]

theorem callMsg_isRunning (s : ThreadState) (m : Msg) :
    (callMsg s m).isRunning = s.isRunning := by
  cases h : m.kind <;> simp [callMsg, h]

theorem callMsg_isAccepting (s : ThreadState) (m : Msg) :
    (callMsg s m).isAcceptingMessages = s.isAcceptingMessages := by
  cases h : m.kind <;> simp [callMsg, h]

theorem callMsg_thread (s : ThreadState) (m : Msg) :
    (callMsg s m).thread = s.thread := by
  cases h : m.kind <;> simp [callMsg, h]

theorem loopIter_delayedQueue (t : Nat) (s : ThreadState) :
    (loopIter t s).delayedQueue = s.delayedQueue.dropWhile (fun e => e.1 < t) := by
  simp only [loopIter]
  split
  · simp [promoteDelayed]
  · simp [callMsg_delayedQueue, promoteDelayed]

theorem loopIter_isRunning (t : Nat) (s : ThreadState) :
    (loopIter t s).isRunning = s.isRunning := by
  simp only [loopIter]
  split
  · rfl
  · simp [callMsg_isRunning, promoteDelayed]

theorem loopIter_isAccepting (t : Nat) (s : ThreadState) :
    (loopIter t s).isAcceptingMessages = s.isAcceptingMessages := by
  simp only [loopIter]
  split
  · rfl
  · simp [callMsg_isAccepting, promoteDelayed]

theorem loopIter_thread (t : Nat) (s : ThreadState) :
    (loopIter t s).thread = s.thread := by
  simp only [loopIter]
  split
  · rfl
  · simp [callMsg_thread, promoteDelayed]

theorem runLoopSteps_not_running (ts : List Nat) (s : ThreadState)
    (h : s.isRunning = false) : runLoopSteps ts s = s := by
  cases ts with
  | nil => rfl
  | cons t ts => simp [runLoopSteps, h]

/-! Membership helpers about takeWhile and dropWhile. -/

theorem mem_dropWhile_of_neg {α : Type} (p : α → Bool) :
    ∀ (l : List α) (x : α), x ∈ l → p x = false → x ∈ l.dropWhile p := by
  intro l
  induction l with
  | nil => intro x hx; simp at hx
  | cons a rest ih =>
    intro x hx hp
    by_cases ha : p a = true
    · rw [List.dropWhile_cons_of_pos ha]
      rcases List.mem_cons.mp hx with h1 | h2
      · rw [h1] at hp; rw [hp] at ha; exact absurd ha (by simp)
      · exact ih x h2 hp
    · rw [List.dropWhile_cons_of_neg ha]
      exact hx

theorem mem_of_mem_takeWhile {α : Type} (p : α → Bool) (l : List α) (x : α)
    (hx : x ∈ l.takeWhile p) : x ∈ l ∧ p x = true :=
  ⟨List.takeWhile_subset p hx,
   by
     have hall := List.all_takeWhile (p := p) (l := l)
     exact (List.all_eq_true.mp hall) x hx⟩

theorem mem_of_mem_dropWhile {α : Type} (p : α → Bool) (l : List α) (x : α)
    (hx : x ∈ l.dropWhile p) : x ∈ l :=
  List.dropWhile_subset p hx

/-- List.lookup skips a block in which the key does not occur. -/
theorem lookup_append_of_none (l1 l2 : List (Nat × Nat)) (k : Nat)
    (h : l1.lookup k = none) : (l1 ++ l2).lookup k = l2.lookup k := by
  induction l1 with
  | nil => simp
  | cons a rest ih =>
    rcases a with ⟨k', v'⟩
    rw [List.lookup_cons] at h
    rw [List.cons_append, List.lookup_cons]
    cases hk : k == k' with
    | true => rw [hk] at h; simp at h
    | false => rw [hk] at h; simp only; exact ih h

/-! Draining the immediate queue and running traces. -/

theorem promoteDelayed_no_delayed (t : Nat) (s : ThreadState)
    (hd : s.delayedQueue = []) : promoteDelayed t s = s := by
  cases s with
  | mk r a q d th mc el pr =>
    simp only at hd
    subst hd
    simp [promoteDelayed]

theorem loopIter_drain (t : Nat) (s : ThreadState) (m : Msg) (rest : List Msg)
    (hd : s.delayedQueue = []) (hq : s.messageQueue = m :: rest) :
    loopIter t s = callMsg { s with messageQueue := rest, missCounter := 0 } m := by
  unfold loopIter
  rw [promoteDelayed_no_delayed t s hd, hq]

theorem loopIter_idle (t : Nat) (s : ThreadState)
    (hd : s.delayedQueue = []) (hq : s.messageQueue = []) :
    loopIter t s = s := by
  unfold loopIter
  rw [promoteDelayed_no_delayed t s hd, hq]

/-- Running the loop for as many iterations as the immediate queue holds, with
no delayed messages, executes exactly the queued messages in queue order and
fulfills their promises in that order. -/
theorem runLoopSteps_drain (q : List Msg) : ∀ (s : ThreadState) (t : Nat),
    s.isRunning = true → s.delayedQueue = [] → s.messageQueue = q →
    (runLoopSteps (List.replicate q.length t) s).execLog = s.execLog ++ q.map Msg.mid
    ∧ (runLoopSteps (List.replicate q.length t) s).promises = s.promises ++ promisesOf q
    ∧ (runLoopSteps (List.replicate q.length t) s).messageQueue = []
    ∧ (runLoopSteps (List.replicate q.length t) s).delayedQueue = []
    ∧ (runLoopSteps (List.replicate q.length t) s).isRunning = true := by
  induction q with
  | nil =>
    intro s t hr hd hq
    simp [runLoopSteps, promisesOf, hq, hd, hr]
  | cons m rest ih =>
    intro s t hr hd hq
    have hlen : List.replicate (m :: rest).length t = t :: List.replicate rest.length t := by
      simp [List.replicate_succ]
    rw [hlen]
    rw [show runLoopSteps (t :: List.replicate rest.length t) s
          = runLoopSteps (List.replicate rest.length t) (loopIter t s) by
        simp [runLoopSteps, hr]]
    rw [loopIter_drain t s m rest hd hq]
    have hr' : (callMsg { s with messageQueue := rest, missCounter := 0 } m).isRunning = true := by
      rw [callMsg_isRunning]; exact hr
    have hd' : (callMsg { s with messageQueue := rest, missCounter := 0 } m).delayedQueue = [] := by
      rw [callMsg_delayedQueue]; exact hd
    have hq' : (callMsg { s with messageQueue := rest, missCounter := 0 } m).messageQueue = rest := by
      rw [callMsg_messageQueue]
    obtain ⟨e1, e2, e3, e4, e5⟩ := ih (callMsg { s with messageQueue := rest, missCounter := 0 } m) t hr' hd' hq'
    refine ⟨?_, ?_, e3, e4, e5⟩
    · rw [e1, callMsg_execLog]
      simp
    · rw [e2, callMsg_promises]
      simp [promisesOf]

theorem runTrace_append (l1 l2 : List Ev) : ∀ s, runTrace s (l1 ++ l2)
    = ((runTrace (runTrace s l1).1 l2).1,
       (runTrace s l1).2 ++ (runTrace (runTrace s l1).1 l2).2) := by
  induction l1 with
  | nil => intro s; simp [runTrace]
  | cons e es ih => intro s; simp [runTrace, ih]

/-- While accepting, a block of send events all succeed and append their
messages, in submission order, at the back of the immediate queue. -/
theorem runTrace_sends (ms : List (Nat × Nat)) : ∀ (s : ThreadState),
    s.isAcceptingMessages = true →
    (runTrace s (sendEvsOf ms)).1
      = { s with messageQueue :=
            s.messageQueue ++ ms.map (fun p => ⟨p.1, p.2, .plain⟩) }
    ∧ (runTrace s (sendEvsOf ms)).2 = List.replicate ms.length none := by
  induction ms with
  | nil =>
    intro s h
    constructor
    · show s = _
      simp
    · rfl
  | cons p rest ih =>
    intro s h
    have hstep : stepEv s (Ev.send p.1 p.2)
        = ({ s with messageQueue := s.messageQueue ++ [⟨p.1, p.2, .plain⟩] }, none) := by
      simp [stepEv, Thread.send, h]
    have hacc' : ({ s with messageQueue := s.messageQueue ++ [⟨p.1, p.2, .plain⟩] }
        : ThreadState).isAcceptingMessages = true := h
    obtain ⟨ih1, ih2⟩ := ih _ hacc'
    constructor
    · show (runTrace s (Ev.send p.1 p.2 :: sendEvsOf rest)).1 = _
      simp only [runTrace, hstep]
      rw [ih1]
      simp [List.append_assoc]
    · show (runTrace s (Ev.send p.1 p.2 :: sendEvsOf rest)).2 = _
      simp only [runTrace, hstep]
      rw [ih2]
      simp [List.replicate_succ]

/-- A block of loop-iteration events is the run loop under the matching
schedule, and none of them reports an error. -/
theorem runTrace_loopIters (t : Nat) : ∀ (n : Nat) (s : ThreadState),
    (runTrace s (List.replicate n (Ev.loopIter t))).1 = runLoopSteps (List.replicate n t) s
    ∧ (runTrace s (List.replicate n (Ev.loopIter t))).2 = List.replicate n none := by
  intro n
  induction n with
  | zero => intro s; exact ⟨rfl, rfl⟩
  | succ k ih =>
    intro s
    rw [List.replicate_succ, List.replicate_succ]
    cases hr : s.isRunning with
    | true =>
      have hstep : stepEv s (Ev.loopIter t) = (loopIter t s, none) := by
        simp [stepEv, hr]
      constructor
      · simp only [runTrace, hstep]
        rw [(ih (loopIter t s)).1]
        simp [runLoopSteps, hr]
      · simp only [runTrace, hstep]
        rw [(ih (loopIter t s)).2]
        simp [List.replicate_succ]
    | false =>
      have hstep : stepEv s (Ev.loopIter t) = (s, none) := by
        simp [stepEv, hr]
      constructor
      · simp only [runTrace, hstep]
        rw [(ih s).1]
        rw [runLoopSteps_not_running _ s hr, runLoopSteps_not_running _ s hr]
      · simp only [runTrace, hstep]
        rw [(ih s).2]
        simp [List.replicate_succ]

/-- C1: evaluation of the code at the failing input. Two sendDelayed
submissions whose absolute deadlines coincide (both 0 + 5 = 5) are both
admitted without error, but delayedQueue is a std::map and its emplace with the
already-present key 5 inserts nothing, so the second callable (tag 2) is
destroyed: after the loop runs past the deadline, only tag 1 has executed and
both queues are empty, so tag 2 can never execute. -/
theorem C1_equal_deadline_second_message_dropped :
    (runTrace initialState [Ev.start 7, Ev.sendDelayed 1 0 5 0,
        Ev.sendDelayed 2 0 5 0, Ev.loopIter 10, Ev.loopIter 10]).2
      = [none, none, none, none, none]
    ∧ (runTrace initialState [Ev.start 7, Ev.sendDelayed 1 0 5 0,
        Ev.sendDelayed 2 0 5 0, Ev.loopIter 10, Ev.loopIter 10]).1.execLog = [1]
    ∧ (runTrace initialState [Ev.start 7, Ev.sendDelayed 1 0 5 0,
        Ev.sendDelayed 2 0 5 0, Ev.loopIter 10, Ev.loopIter 10]).1.messageQueue = []
    ∧ (runTrace initialState [Ev.start 7, Ev.sendDelayed 1 0 5 0,
        Ev.sendDelayed 2 0 5 0, Ev.loopIter 10, Ev.loopIter 10]).1.delayedQueue = [] := by
  exact ⟨rfl, rfl, rfl, rfl⟩

/-- C2 counterexample: on a freshly constructed, never started Thread
(thread handle absent), a caller with any id, in particular one different from
whatever thread constructed the unit, is classified as the same thread, because
getId() falls back to std::this_thread::get_id(), the caller's own id; a
sendAsync from that foreign caller therefore executes in place (execution log
gains tag 0, promise fulfilled) and nothing is enqueued, contradicting the
claim that it resolves to foreign thread and is enqueued. -/
theorem C2_counterexample_foreign_caller_classified_same :
    Thread.getIsSameThread 2 initialState = true
    ∧ (Thread.sendAsync 0 42 2 initialState).map
        (fun s => (s.messageQueue, s.execLog, s.promises))
      = .ok ([], [0], [(0, 42)]) := by
  exact ⟨rfl, rfl⟩

/-- C2 (amended): before start() the thread handle is absent, so getId()
returns the id of whichever thread is calling; same-thread detection therefore
succeeds for every caller, and a sendAsync performed before start runs the
action in place (queue untouched, action executed, promise already fulfilled)
instead of enqueuing it. -/
theorem C2_amended_pre_start_identity (cid mid v : Nat) (s : ThreadState)
    (hth : s.thread = none) :
    Thread.getIsSameThread cid s = true
    ∧ (s.isAcceptingMessages = true →
        Thread.sendAsync mid v cid s = .ok (callMsg s ⟨mid, v, .withPromise⟩)
        ∧ (callMsg s ⟨mid, v, .withPromise⟩).messageQueue = s.messageQueue
        ∧ (callMsg s ⟨mid, v, .withPromise⟩).execLog = s.execLog ++ [mid]
        ∧ (s.promises.lookup mid = none →
            futureGet mid (callMsg s ⟨mid, v, .withPromise⟩) = some v)) := by
  have hsame : Thread.getIsSameThread cid s = true := by
    simp [Thread.getIsSameThread, Thread.getId, hth]
  refine ⟨hsame, fun hacc => ⟨?_, ?_, ?_, ?_⟩⟩
  · simp [Thread.sendAsync, hacc, hsame]
  · exact callMsg_messageQueue s ⟨mid, v, .withPromise⟩
  · exact callMsg_execLog s ⟨mid, v, .withPromise⟩
  · intro hlk
    unfold futureGet
    rw [callMsg_promises]
    show ((s.promises ++ promisesOfMsg ⟨mid, v, .withPromise⟩).lookup mid) = some v
    rw [lookup_append_of_none s.promises _ mid hlk]
    simp [promisesOfMsg, List.lookup_cons]

/-- C2 witness: the amended statement instantiated at the fresh state and a
concrete caller id. -/
theorem C2_amended_pre_start_identity_witness :
    Thread.getIsSameThread 2 initialState = true :=
  (C2_amended_pre_start_identity 2 1 42 initialState rfl).1

/-- C4 counterexample: start, stop, then a second start. The second start()
succeeds (no AlreadyStarted error anywhere in the trace) and installs a new
worker thread with id 6, replacing the first one with id 5: a unit on which
start() has already been called accepts a second start() after stop(), because
start only tests the running flag, not a Created state. -/
theorem C4_counterexample_restart_after_stop :
    (runTrace initialState [Ev.start 5, Ev.stop, Ev.start 6]).2
      = [none, none, none]
    ∧ (runTrace initialState [Ev.start 5, Ev.stop, Ev.start 6]).1.thread
      = some 6 := by
  exact ⟨rfl, rfl⟩

/-- C4 (amended): a second start() while the unit is still running fails with
the AlreadyStarted condition and changes nothing (in particular no second
thread is spawned); but start() only checks the running flag, so once stop()
has cleared it a further start() succeeds and spawns a fresh thread. -/
theorem C4_amended_double_start (s : ThreadState) (w : Nat) :
    (s.isRunning = true →
        Thread.start w s = .error .alreadyStarted
        ∧ stepEv s (.start w) = (s, some .alreadyStarted))
    ∧ (s.isRunning = false →
        Thread.start w s = .ok { s with isRunning := true, thread := some w }) := by
  constructor
  · intro h
    constructor
    · simp [Thread.start, h]
    · simp [stepEv, Thread.start, h]
  · intro h
    simp [Thread.start, h]

/-- C4 witness: the amended statement instantiated at a running unit and at
the initial (not running) unit. -/
theorem C4_amended_double_start_witness :
    stepEv runningState (.start 9) = (runningState, some .alreadyStarted)
    ∧ Thread.start 5 initialState
      = .ok { initialState with isRunning := true, thread := some 5 } :=
  ⟨((C4_amended_double_start runningState 9).1 rfl).2,
   (C4_amended_double_start initialState 5).2 rfl⟩

/-- C9: a sendAsync whose caller id equals the worker's id (while accepting)
invokes the action synchronously in place: the queue is bypassed (unchanged),
the action has run (its tag is appended to the execution log) before sendAsync
returns, and the returned handle is already fulfilled with the action's value. -/
theorem C9_same_thread_short_circuit (mid v cid : Nat) (s : ThreadState)
    (hacc : s.isAcceptingMessages = true)
    (hsame : Thread.getIsSameThread cid s = true) :
    Thread.sendAsync mid v cid s = .ok (callMsg s ⟨mid, v, .withPromise⟩)
    ∧ (callMsg s ⟨mid, v, .withPromise⟩).messageQueue = s.messageQueue
    ∧ (callMsg s ⟨mid, v, .withPromise⟩).execLog = s.execLog ++ [mid]
    ∧ (s.promises.lookup mid = none →
        futureGet mid (callMsg s ⟨mid, v, .withPromise⟩) = some v) := by
  refine ⟨?_, callMsg_messageQueue _ _, callMsg_execLog _ _, ?_⟩
  · simp [Thread.sendAsync, hacc, hsame]
  · intro hlk
    unfold futureGet
    rw [callMsg_promises]
    show ((s.promises ++ promisesOfMsg ⟨mid, v, .withPromise⟩).lookup mid) = some v
    rw [lookup_append_of_none s.promises _ mid hlk]
    simp [promisesOfMsg, List.lookup_cons]

/-- C9 witness: the short-circuit at a started unit whose worker id is 5,
called from id 5 itself. -/
theorem C9_same_thread_short_circuit_witness :
    Thread.sendAsync 1 42 5 runningState
      = .ok (callMsg runningState ⟨1, 42, .withPromise⟩)
    ∧ futureGet 1 (callMsg runningState ⟨1, 42, .withPromise⟩) = some 42 :=
  ⟨(C9_same_thread_short_circuit 1 42 5 runningState rfl rfl).1,
   (C9_same_thread_short_circuit 1 42 5 runningState rfl rfl).2.2.2 rfl⟩

/-- C10: a send, sendDelayed or sendAsync invoked while acceptingMessages is
false throws the NotAccepting error before any mutation: the resulting state is
exactly the state before the call. -/
theorem C10_admission_failure_atomic (s : ThreadState)
    (mid v tmo now cid : Nat) (h : s.isAcceptingMessages = false) :
    stepEv s (.send mid v) = (s, some .notAccepting)
    ∧ stepEv s (.sendDelayed mid v tmo now) = (s, some .notAccepting)
    ∧ stepEv s (.sendAsync mid v cid) = (s, some .notAccepting) := by
  refine ⟨?_, ?_, ?_⟩ <;>
    simp [stepEv, Thread.send, Thread.sendDelayed, Thread.sendAsync, h]

/-- C10 witness: the three admission failures at a concrete stopped state. -/
theorem C10_admission_failure_atomic_witness :
    stepEv stoppedState (.send 1 2) = (stoppedState, some .notAccepting)
    ∧ stepEv stoppedState (.sendDelayed 1 2 3 4) = (stoppedState, some .notAccepting)
    ∧ stepEv stoppedState (.sendAsync 1 2 3) = (stoppedState, some .notAccepting) :=
  C10_admission_failure_atomic stoppedState 1 2 3 4 3 rfl

/-- C5: FIFO. First conjunct: one loop iteration preserves the relative order
of messages already admitted — the sequence already-executed-tags followed by
queued-tags is only ever extended at the back (by the tags promoted from the
delayed queue, in deadline order), never reordered. Second conjunct: a block
of sends a1 ... an admitted into an idle accepting unit, followed by the loop
observing them, executes exactly a1 ... an in submission order, with no
admission failure. -/
theorem C5_fifo_order :
    (∀ (t : Nat) (s : ThreadState),
        (loopIter t s).execLog ++ (loopIter t s).messageQueue.map Msg.mid
          = (s.execLog ++ s.messageQueue.map Msg.mid)
            ++ (s.delayedQueue.takeWhile (fun e => e.1 < t)).map (fun e => e.2.mid))
    ∧ (∀ (ms : List (Nat × Nat)) (s : ThreadState) (t : Nat),
        s.isAcceptingMessages = true → s.isRunning = true →
        s.messageQueue = [] → s.delayedQueue = [] →
        (∀ r ∈ (runTrace s (sendEvsOf ms ++ List.replicate ms.length (Ev.loopIter t))).2,
            r = none)
        ∧ (runTrace s (sendEvsOf ms ++ List.replicate ms.length (Ev.loopIter t))).1.execLog
            = s.execLog ++ ms.map Prod.fst) := by
  constructor
  · intro t s
    simp only [loopIter]
    split
    · next heq =>
      have h2 : s.messageQueue = []
          ∧ (s.delayedQueue.takeWhile (fun e => e.1 < t)).map (fun e => e.2) = [] :=
        List.append_eq_nil.mp (by simpa [promoteDelayed] using heq)
      have h3 : (s.delayedQueue.takeWhile (fun e => e.1 < t)) = [] :=
        List.map_eq_nil_iff.mp h2.2
      simp [promoteDelayed, heq, h2.1, h3]
    · next m rest heq =>
      rw [callMsg_execLog, callMsg_messageQueue]
      have hq : (promoteDelayed t s).messageQueue.map Msg.mid = m.mid :: rest.map Msg.mid := by
        rw [heq]; rfl
      calc ((promoteDelayed t s).execLog ++ [m.mid]) ++ rest.map Msg.mid
          = (promoteDelayed t s).execLog ++ (m.mid :: rest.map Msg.mid) := by simp
        _ = (promoteDelayed t s).execLog ++ (promoteDelayed t s).messageQueue.map Msg.mid := by
              rw [hq]
        _ = (s.execLog ++ s.messageQueue.map Msg.mid)
            ++ (s.delayedQueue.takeWhile (fun e => e.1 < t)).map (fun e => e.2.mid) := by
              simp [promoteDelayed, List.map_map, Function.comp]
  · intro ms s t hacc hr hq hd
    obtain ⟨hs1, hs2⟩ := runTrace_sends ms s hacc
    rw [runTrace_append, hs1, hs2]
    obtain ⟨hl1, hl2⟩ := runTrace_loopIters t ms.length
        { s with messageQueue := s.messageQueue ++ ms.map (fun p => ⟨p.1, p.2, .plain⟩) }
    rw [hl1, hl2]
    have hq' : ({ s with messageQueue := s.messageQueue ++ ms.map (fun p => ⟨p.1, p.2, .plain⟩) }
        : ThreadState).messageQueue = ms.map (fun p => ⟨p.1, p.2, .plain⟩) := by
      simp [hq]
    have hlen : ms.length = (ms.map (fun p => (⟨p.1, p.2, .plain⟩ : Msg))).length := by
      simp
    obtain ⟨e1, e2, e3, e4, e5⟩ := runLoopSteps_drain (ms.map (fun p => ⟨p.1, p.2, .plain⟩))
        { s with messageQueue := s.messageQueue ++ ms.map (fun p => ⟨p.1, p.2, .plain⟩) }
        t hr hd hq'
    constructor
    · intro r hrmem
      rcases List.mem_append.mp hrmem with h1 | h1
      · exact List.eq_of_mem_replicate h1
      · exact List.eq_of_mem_replicate h1
    · rw [hlen, e1]
      simp [List.map_map, Function.comp]

/-- C5 witness: three sends into a started idle unit execute as 1, 2, 3. -/
theorem C5_fifo_order_witness :
    (runTrace runningState
        (sendEvsOf [(1, 10), (2, 20), (3, 30)]
          ++ List.replicate 3 (Ev.loopIter 9))).1.execLog = [1, 2, 3] := by
  have h := (C5_fifo_order.2 [(1, 10), (2, 20), (3, 30)] runningState 9
      rfl rfl rfl rfl).2
  simpa using h

/-! Helper lemmas for admission closure (C3). -/

theorem stepEv_keeps_not_accepting (s : ThreadState) (e : Ev)
    (h : s.isAcceptingMessages = false) :
    ((stepEv s e).1).isAcceptingMessages = false := by
  cases e with
  | start w => cases hb : s.isRunning <;> simp [stepEv, Thread.start, hb, h]
  | stop => cases hb : s.thread <;> simp [stepEv, Thread.stop, hb, h]
  | send mid v => simp [stepEv, Thread.send, h]
  | sendDelayed mid v tmo now => simp [stepEv, Thread.sendDelayed, h]
  | sendAsync mid v cid => simp [stepEv, Thread.sendAsync, h]
  | sendSyncAdmit mid v cid =>
      cases hb : s.isRunning <;>
        simp [stepEv, Thread.sendSyncAdmit, Thread.sendAsync, hb, h]
  | loopIter t => cases hb : s.isRunning <;> simp [stepEv, hb, loopIter_isAccepting, h]

theorem no_notAccepting_of_accepting (tr : List Ev) : ∀ (s : ThreadState),
    s.isAcceptingMessages = true → Ev.stop ∉ tr →
    ∀ r ∈ (runTrace s tr).2, r ≠ some ThreadError.notAccepting := by
  induction tr with
  | nil => intro s h hstop r hr; simp [runTrace] at hr
  | cons e es ih =>
    intro s h hstop r hr
    have hne : e ≠ Ev.stop := by
      intro he; exact hstop (by rw [he]; exact List.mem_cons_self _ _)
    have hnes : Ev.stop ∉ es := fun hm => hstop (List.mem_cons_of_mem _ hm)
    have hstep : (stepEv s e).2 ≠ some ThreadError.notAccepting
        ∧ ((stepEv s e).1).isAcceptingMessages = true := by
      cases e with
      | start w => cases hb : s.isRunning <;> simp [stepEv, Thread.start, hb, h]
      | stop => exact absurd rfl hne
      | send mid v => simp [stepEv, Thread.send, h]
      | sendDelayed mid v tmo now => simp [stepEv, Thread.sendDelayed, h]
      | sendAsync mid v cid =>
          cases hsame : Thread.getIsSameThread cid s <;>
            simp [stepEv, Thread.sendAsync, h, hsame, callMsg_isAccepting]
      | sendSyncAdmit mid v cid =>
          cases hb : s.isRunning <;> cases hsame : Thread.getIsSameThread cid s <;>
            simp [stepEv, Thread.sendSyncAdmit, Thread.sendAsync, hb, h, hsame,
              callMsg_isAccepting]
      | loopIter t => cases hb : s.isRunning <;> simp [stepEv, hb, loopIter_isAccepting, h]
    have hrw : runTrace s (e :: es)
        = ((runTrace (stepEv s e).1 es).1,
           (stepEv s e).2 :: (runTrace (stepEv s e).1 es).2) := rfl
    rw [hrw] at hr
    rcases List.mem_cons.mp hr with h1 | h2
    · rw [h1]; exact hstep.1
    · exact ih (stepEv s e).1 hstep.2 hnes r h2

/-- C3 counterexample: after start then stop, a sendSync admission fails, but
with the NotStarted error (the running check of sendSync precedes the
admission check), not with NotAccepting as the claim states for every send
operation. -/
theorem C3_counterexample_sendSync_after_stop :
    (runTrace initialState [Ev.start 7, Ev.stop, Ev.sendSyncAdmit 1 0 9]).2
      = [none, none, some ThreadError.notStarted]
    ∧ (runTrace initialState [Ev.start 7, Ev.stop, Ev.sendSyncAdmit 1 0 9]).2
      ≠ [none, none, some ThreadError.notAccepting] := by
  exact ⟨rfl, by decide⟩

/-- C3 (amended): stop() closes admission and clears the running flag; once
acceptingMessages is false no event ever resets it; in that situation send,
sendDelayed and sendAsync fail with NotAccepting, while sendSync (and hence
sendWait, which delegates to it) fails with NotStarted as long as the unit has
not been restarted (and with NotAccepting if it has); and in any trace from
construction that never calls stop(), no send operation fails with
NotAccepting. -/
theorem C3_admission_closure :
    (∀ (s s' : ThreadState), Thread.stop s = .ok s' →
        s'.isAcceptingMessages = false ∧ s'.isRunning = false)
    ∧ (∀ (s : ThreadState) (e : Ev), s.isAcceptingMessages = false →
        ((stepEv s e).1).isAcceptingMessages = false)
    ∧ (∀ (s : ThreadState) (mid v tmo now cid : Nat), s.isAcceptingMessages = false →
        Thread.send mid v s = .error .notAccepting
        ∧ Thread.sendDelayed mid v tmo now s = .error .notAccepting
        ∧ Thread.sendAsync mid v cid s = .error .notAccepting
        ∧ (s.isRunning = false → Thread.sendSyncAdmit mid v cid s = .error .notStarted)
        ∧ (s.isRunning = true → Thread.sendSyncAdmit mid v cid s = .error .notAccepting))
    ∧ (∀ (tr : List Ev), Ev.stop ∉ tr →
        ∀ r ∈ (runTrace initialState tr).2, r ≠ some ThreadError.notAccepting) := by
  refine ⟨?_, stepEv_keeps_not_accepting, ?_, ?_⟩
  · intro s s' hok
    cases hb : s.thread with
    | none => simp [Thread.stop, hb] at hok
    | some w =>
      simp [Thread.stop, hb] at hok
      rw [← hok]
      exact ⟨rfl, rfl⟩
  · intro s mid v tmo now cid h
    refine ⟨?_, ?_, ?_, ?_, ?_⟩
    · simp [Thread.send, h]
    · simp [Thread.sendDelayed, h]
    · simp [Thread.sendAsync, h]
    · intro hr; simp [Thread.sendSyncAdmit, hr]
    · intro hr; simp [Thread.sendSyncAdmit, Thread.sendAsync, hr, h]
  · intro tr htr
    exact no_notAccepting_of_accepting tr initialState rfl htr

/-- C3 witness: the amended statement at a stopped unit (send fails
NotAccepting, sendSync fails NotStarted) and on a stop-free trace. -/
theorem C3_admission_closure_witness :
    Thread.send 1 2 stoppedState = .error .notAccepting
    ∧ Thread.sendSyncAdmit 1 2 9 stoppedState = .error .notStarted
    ∧ ∀ r ∈ (runTrace initialState [Ev.start 7, Ev.send 1 2]).2,
        r ≠ some ThreadError.notAccepting :=
  ⟨(C3_admission_closure.2.2.1 stoppedState 1 2 3 4 9 rfl).1,
   (C3_admission_closure.2.2.1 stoppedState 1 2 3 4 9 rfl).2.2.2.1 rfl,
   C3_admission_closure.2.2.2 [Ev.start 7, Ev.send 1 2] (by decide)⟩

/-! runLeftovers and message-survival lemmas (C7). -/

theorem foldl_callMsg_execLog (q : List Msg) : ∀ (s : ThreadState),
    (q.foldl callMsg s).execLog = s.execLog ++ q.map Msg.mid := by
  induction q with
  | nil => intro s; simp
  | cons m rest ih =>
    intro s
    rw [List.foldl_cons, ih, callMsg_execLog]
    simp

theorem foldl_callMsg_delayedQueue (q : List Msg) : ∀ (s : ThreadState),
    (q.foldl callMsg s).delayedQueue = s.delayedQueue := by
  induction q with
  | nil => intro s; simp
  | cons m rest ih =>
    intro s
    rw [List.foldl_cons, ih, callMsg_delayedQueue]

theorem runLeftovers_execLog (s : ThreadState) :
    (runLeftovers s).execLog = s.execLog ++ s.messageQueue.map Msg.mid := by
  show (s.messageQueue.foldl callMsg s).execLog = _
  exact foldl_callMsg_execLog s.messageQueue s

theorem runLeftovers_delayedQueue (s : ThreadState) :
    (runLeftovers s).delayedQueue = s.delayedQueue := by
  show (s.messageQueue.foldl callMsg s).delayedQueue = _
  exact foldl_callMsg_delayedQueue s.messageQueue s

/-- One loop iteration either executes nothing (the promoted queue is empty)
or pops the front of the promoted queue and executes it. -/
theorem loopIter_shape (t : Nat) (s : ThreadState) :
    ((loopIter t s).execLog = s.execLog
      ∧ (loopIter t s).messageQueue
          = s.messageQueue
            ++ (s.delayedQueue.takeWhile (fun e => e.1 < t)).map (fun e => e.2))
    ∨ (∃ m0 rest,
        s.messageQueue ++ (s.delayedQueue.takeWhile (fun e => e.1 < t)).map (fun e => e.2)
          = m0 :: rest
        ∧ (loopIter t s).execLog = s.execLog ++ [m0.mid]
        ∧ (loopIter t s).messageQueue = rest) := by
  simp only [loopIter]
  split
  · next heq =>
    left
    exact ⟨rfl, by simp [promoteDelayed]⟩
  · next m0 rest heq =>
    right
    refine ⟨m0, rest, ?_, ?_, ?_⟩
    · rw [← heq]; simp [promoteDelayed]
    · rw [callMsg_execLog]; simp [promoteDelayed]
    · rw [callMsg_messageQueue]

theorem loopIter_keeps (t : Nat) (s : ThreadState) (m : Msg)
    (h : m ∈ s.messageQueue ∨ m.mid ∈ s.execLog) :
    m ∈ (loopIter t s).messageQueue ∨ m.mid ∈ (loopIter t s).execLog := by
  rcases loopIter_shape t s with ⟨he, hq⟩ | ⟨m0, rest, hsplit, he, hq⟩
  · rcases h with hm | hm
    · left; rw [hq]; exact List.mem_append_left _ hm
    · right; rw [he]; exact hm
  · rcases h with hm | hm
    · have hmem : m ∈ m0 :: rest := by
        rw [← hsplit]; exact List.mem_append_left _ hm
      rcases List.mem_cons.mp hmem with h1 | h1
      · right; rw [he, h1]; exact List.mem_append_right _ (List.mem_singleton.mpr rfl)
      · left; rw [hq]; exact h1
    · right; rw [he]; exact List.mem_append_left _ hm

theorem runLoopSteps_keeps (ts : List Nat) : ∀ (s : ThreadState) (m : Msg),
    m ∈ s.messageQueue ∨ m.mid ∈ s.execLog →
    m ∈ (runLoopSteps ts s).messageQueue ∨ m.mid ∈ (runLoopSteps ts s).execLog := by
  induction ts with
  | nil => intro s m h; exact h
  | cons t ts ih =>
    intro s m h
    cases hr : s.isRunning with
    | false => rw [runLoopSteps_not_running _ s hr]; exact h
    | true =>
      rw [show runLoopSteps (t :: ts) s = runLoopSteps ts (loopIter t s) by
        simp [runLoopSteps, hr]]
      exact ih (loopIter t s) m (loopIter_keeps t s m h)

/-- C7: when the loop exits, runLeftovers executes every message still in the
immediate queue, in queue order, and empties that queue while never touching
the delayed queue; any message in the immediate queue at any point is executed
by the time the loop body (any schedule) plus the final drain have run; and a
delayed message that has not been promoted is not executed by the drain — it
is discarded. -/
theorem C7_drain_on_stop :
    (∀ s : ThreadState,
        (runLeftovers s).execLog = s.execLog ++ s.messageQueue.map Msg.mid
        ∧ (runLeftovers s).messageQueue = []
        ∧ (runLeftovers s).delayedQueue = s.delayedQueue)
    ∧ (∀ (times : List Nat) (s : ThreadState) (m : Msg),
        m ∈ s.messageQueue →
        m.mid ∈ (runLeftovers (runLoopSteps times s)).execLog)
    ∧ (∀ (s : ThreadState) (d : Nat) (m : Msg),
        (d, m) ∈ s.delayedQueue → m.mid ∉ s.execLog →
        m.mid ∉ s.messageQueue.map Msg.mid →
        m.mid ∉ (runLeftovers s).execLog) := by
  refine ⟨fun s => ⟨runLeftovers_execLog s, rfl, runLeftovers_delayedQueue s⟩, ?_, ?_⟩
  · intro times s m hm
    rcases runLoopSteps_keeps times s m (Or.inl hm) with h | h
    · rw [runLeftovers_execLog]
      exact List.mem_append_right _ (List.mem_map_of_mem Msg.mid h)
    · rw [runLeftovers_execLog]
      exact List.mem_append_left _ h
  · intro s d m _ h1 h2
    rw [runLeftovers_execLog]
    intro hmem
    rcases List.mem_append.mp hmem with h | h
    · exact h1 h
    · exact h2 h

/-- C7 witness: a single queued message survives a loop pass and the final
drain. -/
theorem C7_drain_on_stop_witness :
    (Msg.mk 1 0 MsgKind.plain).mid ∈
      (runLeftovers (runLoopSteps [3]
        { runningState with messageQueue := [Msg.mk 1 0 MsgKind.plain] })).execLog :=
  C7_drain_on_stop.2.1 [3]
    { runningState with messageQueue := [Msg.mk 1 0 MsgKind.plain] }
    (Msg.mk 1 0 MsgKind.plain) (by simp)

/-! Delay-floor lemmas (C6). -/

theorem takeWhile_all {α : Type} (p : α → Bool) : ∀ (l : List α),
    (∀ x ∈ l, p x = true) → l.takeWhile p = l := by
  intro l
  induction l with
  | nil => intro _; simp
  | cons a rest ih =>
    intro h
    rw [List.takeWhile_cons_of_pos (h a (List.mem_cons_self _ _)),
        ih (fun x hx => h x (List.mem_cons_of_mem _ hx))]

theorem dropWhile_all {α : Type} (p : α → Bool) : ∀ (l : List α),
    (∀ x ∈ l, p x = true) → l.dropWhile p = [] := by
  intro l
  induction l with
  | nil => intro _; simp
  | cons a rest ih =>
    intro h
    rw [List.dropWhile_cons_of_pos (h a (List.mem_cons_self _ _))]
    exact ih (fun x hx => h x (List.mem_cons_of_mem _ hx))

theorem mem_mapEmplace (k : Nat) (v : Msg) : ∀ (l : List (Nat × Msg)) (x : Nat × Msg),
    x ∈ mapEmplace k v l → x = (k, v) ∨ x ∈ l := by
  intro l
  induction l with
  | nil =>
    intro x hx
    simp [mapEmplace] at hx
    left; exact hx
  | cons e rest ih =>
    intro x hx
    by_cases h1 : k < e.1
    · rw [show mapEmplace k v (e :: rest) = (k, v) :: e :: rest by
        simp [mapEmplace, h1]] at hx
      rcases List.mem_cons.mp hx with h | h
      · left; exact h
      · right; exact h
    · by_cases h2 : k = e.1
      · rw [show mapEmplace k v (e :: rest) = e :: rest by
          simp [mapEmplace, h1, h2]] at hx
        right; exact hx
      · rw [show mapEmplace k v (e :: rest) = e :: mapEmplace k v rest by
          simp [mapEmplace, h1, h2]] at hx
        rcases List.mem_cons.mp hx with h | h
        · right; rw [h]; exact List.mem_cons_self _ _
        · rcases ih x h with h' | h'
          · left; exact h'
          · right; exact List.mem_cons_of_mem _ h'

theorem mapEmplace_sorted (k : Nat) (v : Msg) : ∀ (l : List (Nat × Msg)),
    List.Pairwise (fun a b => a.1 < b.1) l →
    List.Pairwise (fun a b => a.1 < b.1) (mapEmplace k v l) := by
  intro l
  induction l with
  | nil => intro _; simp [mapEmplace]
  | cons e rest ih =>
    intro hp
    rw [List.pairwise_cons] at hp
    obtain ⟨he, hrest⟩ := hp
    by_cases h1 : k < e.1
    · rw [show mapEmplace k v (e :: rest) = (k, v) :: e :: rest by
        simp [mapEmplace, h1]]
      rw [List.pairwise_cons]
      constructor
      · intro b hb
        rcases List.mem_cons.mp hb with h | h
        · rw [h]; exact h1
        · exact lt_trans h1 (he b h)
      · rw [List.pairwise_cons]; exact ⟨he, hrest⟩
    · by_cases h2 : k = e.1
      · rw [show mapEmplace k v (e :: rest) = e :: rest by
          simp [mapEmplace, h1, h2]]
        rw [List.pairwise_cons]; exact ⟨he, hrest⟩
      · rw [show mapEmplace k v (e :: rest) = e :: mapEmplace k v rest by
          simp [mapEmplace, h1, h2]]
        rw [List.pairwise_cons]
        refine ⟨?_, ih hrest⟩
        intro b hb
        rcases mem_mapEmplace k v rest b hb with h | h
        · rw [h]; omega
        · exact he b h

theorem delayed_pending (times : List Nat) : ∀ (s : ThreadState) (d : Nat) (m : Msg),
    (d, m) ∈ s.delayedQueue → (∀ t ∈ times, t ≤ d) →
    (d, m) ∈ (runLoopSteps times s).delayedQueue := by
  induction times with
  | nil => intro s d m hm _; exact hm
  | cons t ts ih =>
    intro s d m hm ht
    cases hr : s.isRunning with
    | false => rw [runLoopSteps_not_running _ s hr]; exact hm
    | true =>
      rw [show runLoopSteps (t :: ts) s = runLoopSteps ts (loopIter t s) by
        simp [runLoopSteps, hr]]
      apply ih
      · rw [loopIter_delayedQueue]
        apply mem_dropWhile_of_neg _ _ _ hm
        have hnd : ¬ d < t := Nat.not_lt.mpr (ht t (List.mem_cons_self t ts))
        simp [hnd]
      · intro t' ht'; exact ht t' (List.mem_cons_of_mem _ ht')

theorem delayed_fresh_not_executed (times : List Nat) :
    ∀ (s : ThreadState) (d mid0 : Nat),
    (∀ t ∈ times, t ≤ d) →
    mid0 ∉ s.execLog →
    mid0 ∉ s.messageQueue.map Msg.mid →
    (∀ e ∈ s.delayedQueue, e.2.mid = mid0 → d ≤ e.1) →
    mid0 ∉ (runLoopSteps times s).execLog := by
  induction times with
  | nil => intro s d mid0 _ h1 _ _; exact h1
  | cons t ts ih =>
    intro s d mid0 ht h1 h2 h3
    cases hr : s.isRunning with
    | false => rw [runLoopSteps_not_running _ s hr]; exact h1
    | true =>
      rw [show runLoopSteps (t :: ts) s = runLoopSteps ts (loopIter t s) by
        simp [runLoopSteps, hr]]
      have htd : t ≤ d := ht t (List.mem_cons_self t ts)
      have hts : ∀ t' ∈ ts, t' ≤ d := fun t' ht' => ht t' (List.mem_cons_of_mem _ ht')
      have hprom : ∀ e ∈ s.delayedQueue.takeWhile (fun e => e.1 < t),
          e.2.mid ≠ mid0 := by
        intro e he hmid
        obtain ⟨heL, hep⟩ := mem_of_mem_takeWhile _ _ _ he
        have h1t : e.1 < t := by simpa using hep
        have hd1 : d ≤ e.1 := h3 e heL hmid
        omega
      have h2' : mid0 ∉ (s.messageQueue
          ++ (s.delayedQueue.takeWhile (fun e => e.1 < t)).map (fun e => e.2)).map Msg.mid := by
        rw [List.map_append]
        intro hmem
        rcases List.mem_append.mp hmem with hA | hB
        · exact h2 hA
        · rw [List.map_map] at hB
          rcases List.mem_map.mp hB with ⟨e, heL, hee⟩
          exact hprom e heL hee
      have h3' : ∀ e ∈ (loopIter t s).delayedQueue, e.2.mid = mid0 → d ≤ e.1 := by
        intro e he hm
        rw [loopIter_delayedQueue] at he
        exact h3 e (mem_of_mem_dropWhile _ _ _ he) hm
      rcases loopIter_shape t s with ⟨he, hq⟩ | ⟨m0, rest, hsplit, he, hq⟩
      · exact ih (loopIter t s) d mid0 hts (by rw [he]; exact h1)
          (by rw [hq]; exact h2') h3'
      · have hm0 : m0.mid ≠ mid0 := by
          have hmem : m0 ∈ s.messageQueue
              ++ (s.delayedQueue.takeWhile (fun e => e.1 < t)).map (fun e => e.2) := by
            rw [hsplit]; exact List.mem_cons_self _ _
          intro hcon
          exact h2' (hcon ▸ List.mem_map_of_mem Msg.mid hmem)
        apply ih (loopIter t s) d mid0 hts ?_ ?_ h3'
        · rw [he]
          intro hmem
          rcases List.mem_append.mp hmem with hA | hB
          · exact h1 hA
          · exact hm0 (List.mem_singleton.mp hB).symm
        · rw [hq]
          intro hmem
          apply h2'
          have hmm : (s.messageQueue
              ++ (s.delayedQueue.takeWhile (fun e => e.1 < t)).map (fun e => e.2)).map Msg.mid
              = m0.mid :: rest.map Msg.mid := by
            rw [hsplit]; rfl
          rw [hmm]
          exact List.mem_cons_of_mem _ hmem

/-- C6: delay floor and deadline order. First conjunct: a delayed entry with
deadline d survives, unpromoted and with its action unexecuted, any sequence
of loop iterations whose clock readings are all at or before d (the loop
promotes only entries with deadline strictly in the past, so an action never
runs before its admission deadline now + timeout). Second conjunct:
sendDelayed's map insertion keeps the delayed queue sorted by strictly
ascending deadline. Third conjunct: once every deadline is in the past, the
loop executes the delayed messages exactly in deadline (queue) order. -/
theorem C6_delay_floor_and_deadline_order :
    (∀ (times : List Nat) (s : ThreadState) (d : Nat) (m : Msg),
        (d, m) ∈ s.delayedQueue → (∀ t ∈ times, t ≤ d) →
        (d, m) ∈ (runLoopSteps times s).delayedQueue
        ∧ (m.mid ∉ s.execLog → m.mid ∉ s.messageQueue.map Msg.mid →
            (∀ e ∈ s.delayedQueue, e.2.mid = m.mid → d ≤ e.1) →
            m.mid ∉ (runLoopSteps times s).execLog))
    ∧ (∀ (k : Nat) (v : Msg) (l : List (Nat × Msg)),
        List.Pairwise (fun a b => a.1 < b.1) l →
        List.Pairwise (fun a b => a.1 < b.1) (mapEmplace k v l))
    ∧ (∀ (s : ThreadState) (t : Nat),
        s.isRunning = true → s.messageQueue = [] →
        (∀ e ∈ s.delayedQueue, e.1 < t) →
        (runLoopSteps (List.replicate s.delayedQueue.length t) s).execLog
          = s.execLog ++ s.delayedQueue.map (fun e => e.2.mid)) := by
  refine ⟨?_, mapEmplace_sorted, ?_⟩
  · intro times s d m hm ht
    exact ⟨delayed_pending times s d m hm ht,
           fun h1 h2 h3 => delayed_fresh_not_executed times s d m.mid ht h1 h2 h3⟩
  · intro s t hr hq hall
    have hallb : ∀ x ∈ s.delayedQueue, (fun (e : Nat × Msg) => decide (e.1 < t)) x = true :=
      fun x hx => by simpa using hall x hx
    cases hdq : s.delayedQueue with
    | nil => simp [hdq, runLoopSteps]
    | cons e0 drest =>
      have htw : s.delayedQueue.takeWhile (fun e => e.1 < t) = s.delayedQueue :=
        takeWhile_all _ _ hallb
      have hdw : s.delayedQueue.dropWhile (fun e => e.1 < t) = [] :=
        dropWhile_all _ _ hallb
      have hpd : (promoteDelayed t s).messageQueue = e0.2 :: drest.map (fun e => e.2) := by
        show s.messageQueue
            ++ (s.delayedQueue.takeWhile (fun e => e.1 < t)).map (fun e => e.2)
          = _
        rw [htw, hq, hdq]
        simp
      have hpdd : (promoteDelayed t s).delayedQueue = [] := hdw
      have hli : loopIter t s
          = callMsg { promoteDelayed t s with
              messageQueue := drest.map (fun e => e.2), missCounter := 0 } e0.2 := by
        unfold loopIter
        rw [hpd]
      have hr2 : (loopIter t s).isRunning = true := by rw [loopIter_isRunning]; exact hr
      have hd2 : (loopIter t s).delayedQueue = [] := by
        rw [hli, callMsg_delayedQueue]; exact hpdd
      have hq2 : (loopIter t s).messageQueue = drest.map (fun e => e.2) := by
        rw [hli, callMsg_messageQueue]
      have he2 : (loopIter t s).execLog = s.execLog ++ [e0.2.mid] := by
        rw [hli, callMsg_execLog]
        simp [promoteDelayed]
      obtain ⟨e1, _, _, _, _⟩ :=
        runLoopSteps_drain (drest.map (fun e => e.2)) (loopIter t s) t hr2 hd2 hq2
      rw [show List.replicate (e0 :: drest).length t = t :: List.replicate drest.length t by
        simp [List.replicate_succ]]
      rw [show runLoopSteps (t :: List.replicate drest.length t) s
            = runLoopSteps (List.replicate drest.length t) (loopIter t s) by
        simp [runLoopSteps, hr]]
      rw [show List.replicate drest.length t
            = List.replicate (drest.map (fun (e : Nat × Msg) => e.2)).length t by simp]
      rw [e1, he2]
      simp [List.map_map, Function.comp]

/-- C6 witness: a message with deadline 5 is still pending after an iteration
at time 3, and its action has not executed. -/
theorem C6_delay_floor_witness :
    (5, Msg.mk 1 0 MsgKind.plain) ∈
      (runLoopSteps [3]
        { runningState with delayedQueue := [(5, Msg.mk 1 0 MsgKind.plain)] }).delayedQueue
    ∧ (Msg.mk 1 0 MsgKind.plain).mid ∉
      (runLoopSteps [3]
        { runningState with delayedQueue := [(5, Msg.mk 1 0 MsgKind.plain)] }).execLog :=
  ⟨(C6_delay_floor_and_deadline_order.1 [3]
      { runningState with delayedQueue := [(5, Msg.mk 1 0 MsgKind.plain)] }
      5 (Msg.mk 1 0 MsgKind.plain) (by simp) (by decide)).1,
   (C6_delay_floor_and_deadline_order.1 [3]
      { runningState with delayedQueue := [(5, Msg.mk 1 0 MsgKind.plain)] }
      5 (Msg.mk 1 0 MsgKind.plain) (by simp) (by decide)).2
     (by decide) (by decide) (by decide)⟩

/-! Promise bookkeeping (C8). -/

theorem promisesOf_append : ∀ (a b : List Msg),
    promisesOf (a ++ b) = promisesOf a ++ promisesOf b := by
  intro a b
  induction a with
  | nil => simp [promisesOf]
  | cons m rest ih =>
    rw [List.cons_append]
    show promisesOfMsg m ++ promisesOf (rest ++ b) = _
    rw [ih]
    simp [promisesOf]

theorem lookup_promisesOf_none (q : List Msg) (mid0 : Nat)
    (h : mid0 ∉ q.map Msg.mid) : (promisesOf q).lookup mid0 = none := by
  induction q with
  | nil => rfl
  | cons m rest ih =>
    have hne : mid0 ≠ m.mid := by
      intro hc; exact h (by rw [hc]; exact List.mem_cons_self _ _)
    have hrest : mid0 ∉ rest.map Msg.mid := by
      intro hc; exact h (List.mem_cons_of_mem _ hc)
    show (promisesOfMsg m ++ promisesOf rest).lookup mid0 = none
    cases hk : m.kind with
    | plain =>
      rw [show promisesOfMsg m = [] by simp [promisesOfMsg, hk]]
      rw [List.nil_append]
      exact ih hrest
    | withPromise =>
      rw [show promisesOfMsg m = [(m.mid, m.value)] by simp [promisesOfMsg, hk]]
      rw [List.cons_append, List.lookup_cons]
      rw [show (mid0 == m.mid) = false by simpa using hne]
      exact ih hrest

/-- C8: sendSync on a unit that is not started fails with the NotStarted
condition instead of blocking; and on a started unit, invoked from a foreign
thread, the admission enqueues the result-bearing message at the back of the
queue, and once the worker has drained the queue the future on which sendSync
blocks holds exactly the value v produced by executing the action, which
future.get then returns. -/
theorem C8_sync_round_trip :
    (∀ (mid v cid : Nat) (s : ThreadState), s.isRunning = false →
        Thread.sendSyncAdmit mid v cid s = .error .notStarted)
    ∧ (∀ (mid v cid t : Nat) (s : ThreadState),
        s.isRunning = true → s.isAcceptingMessages = true →
        Thread.getIsSameThread cid s = false →
        s.delayedQueue = [] →
        s.promises.lookup mid = none →
        mid ∉ s.messageQueue.map Msg.mid →
        Thread.sendSyncAdmit mid v cid s
          = .ok { s with messageQueue := s.messageQueue ++ [⟨mid, v, .withPromise⟩] }
        ∧ futureGet mid (runLoopSteps
            (List.replicate (s.messageQueue.length + 1) t)
            { s with messageQueue := s.messageQueue ++ [⟨mid, v, .withPromise⟩] })
          = some v) := by
  constructor
  · intro mid v cid s h
    simp [Thread.sendSyncAdmit, h]
  · intro mid v cid t s hr hacc hsame hd hlk hfresh
    constructor
    · simp [Thread.sendSyncAdmit, Thread.sendAsync, hr, hacc, hsame]
    · have hlen : s.messageQueue.length + 1
          = (s.messageQueue ++ [(⟨mid, v, .withPromise⟩ : Msg)]).length := by simp
      rw [hlen]
      obtain ⟨_, e2, _, _, _⟩ :=
        runLoopSteps_drain (s.messageQueue ++ [(⟨mid, v, .withPromise⟩ : Msg)])
          { s with messageQueue := s.messageQueue ++ [(⟨mid, v, .withPromise⟩ : Msg)] }
          t hr hd rfl
      unfold futureGet
      rw [e2]
      show ((s.promises ++ promisesOf (s.messageQueue ++ [⟨mid, v, .withPromise⟩])).lookup mid)
          = some v
      rw [promisesOf_append]
      rw [show promisesOf [(⟨mid, v, .withPromise⟩ : Msg)] = [(mid, v)] by
        simp [promisesOf, promisesOfMsg]]
      rw [← List.append_assoc]
      rw [lookup_append_of_none (s.promises ++ promisesOf s.messageQueue) _ mid ?_]
      · simp [List.lookup_cons]
      · rw [lookup_append_of_none s.promises _ mid hlk]
        exact lookup_promisesOf_none s.messageQueue mid hfresh

/-- C8 witness: from a foreign caller (id 9) on a started idle unit (worker id
5), the enqueued action returning 42 fulfills the future with 42 after one
loop iteration; and on the initial (never started) unit a sendSync fails with
NotStarted. -/
theorem C8_sync_round_trip_witness :
    Thread.sendSyncAdmit 1 42 9 initialState = .error .notStarted
    ∧ futureGet 1 (runLoopSteps (List.replicate (runningState.messageQueue.length + 1) 3)
        { runningState with
            messageQueue := runningState.messageQueue ++ [⟨1, 42, .withPromise⟩] })
      = some 42 :=
  ⟨C8_sync_round_trip.1 1 42 9 initialState rfl,
   (C8_sync_round_trip.2 1 42 9 3 runningState rfl rfl rfl rfl rfl (by decide)).2⟩

end Threads
